import Mathlib

/-!
# Shallow embedding of the jira-assistant worklog pipeline

This file embeds the two entry points of the repository:

* `src/index.ts` — the CLI (text-serialization) variant, `getMyWorklogsSince`,
  which prints a literal header line and a CSV-encoded row matrix;
* the unnamed document variant, `getMyWorklogsForPeriod`, which returns a row
  matrix (header row, data rows, total row) later rendered to a PDF table,
  together with its report-period selection logic (`reportDateStart`,
  `getLastDayOfMonth`).

Modelling conventions:

* JS numbers are modelled as exact rationals (`ℚ`); the only arithmetic the
  pipeline performs is division by 3600 and summation.
* The external Jira service is an environment (`JiraEnv`): the full result set
  the JQL query would match, a per-issue-key worklog fetch, and the JS
  `Date`-parsing function used only by the sort comparator.  The model applies
  the `maxResults` truncation that the server performs on the search result.
* Fallible code paths (the TypeScript non-null assertions whose failure throws
  at runtime) are modelled with `Except String`.
* The string `q.toString().replace('.', ',')` is modelled by the dedicated
  cell constructor `Cell.fmtNum q`; the rendering is injective on numbers, so
  carrying the number itself is faithful and keeps the column sums exact.
-/

namespace JiraAssistant

/-- A cell of the produced row matrix.  JS cell values are plain strings,
raw numbers, decimal-comma-formatted number strings
(`n.toString().replace('.', ',')`, modelled as `fmtNum`), or the JS
`undefined` value (`undef`), which the CLI detailed mode can place in the
comment column. -/
inductive Cell where
  | str (s : String)
  | num (q : ℚ)
  | fmtNum (q : ℚ)
  | undef
deriving DecidableEq

/-- jira.js `Version3Models.Document`: an optional direct text payload and an
optional ordered list of child nodes. -/
inductive Document where
  | mk (text : Option String) (content : Option (List Document))

/-- The `text?: string` field. -/
def Document.text : Document → Option String
  | .mk t _ => t

/-- The `content?: Document[]` field. -/
def Document.content : Document → Option (List Document)
  | .mk _ c => c

mutual
/-- `extractTextFromJiraDocumentNode` (identical in both source files):
`contentsText = (documentNode.content ?? []).map(extract).reduce((acc, t) => acc.concat(t), '')`,
then `contentsText + (documentNode.text ?? '')`.  The left fold of string
concatenation over the mapped children is rendered structurally by
`extractContents`; `extractContents_eq_join` below proves it equal to
`String.join ∘ List.map`. -/
def extractTextFromJiraDocumentNode : Document → String
  | .mk text content => extractContents (content.getD []) ++ text.getD ""
termination_by node => sizeOf node
decreasing_by
  rename_i c
  cases c <;> (simp; try omega)

/-- The concatenation, in order, of the extraction of each node of a list. -/
def extractContents : List Document → String
  | [] => ""
  | node :: rest => extractTextFromJiraDocumentNode node ++ extractContents rest
termination_by l => sizeOf l
decreasing_by
  all_goals (simp; try omega)
end

/-- jira.js worklog author: `author?: { emailAddress?: string }`. -/
structure Author where
  emailAddress : Option String
deriving DecidableEq

/-- A raw worklog record as returned by
`jiraClient.issueWorklogs.getIssueWorklog`.  All fields the pipeline touches
are optional in jira.js. -/
structure RawWorklog where
  author : Option Author
  started : Option String
  issueId : Option String
  timeSpentSeconds : Option ℚ
  comment : Option Document

/-- An issue summary from the JQL search: `id` and `key`. -/
structure Issue where
  id : String
  key : String
deriving DecidableEq

/-- The payload of one `getIssueWorklog` call. -/
structure WorklogResponse where
  worklogs : List RawWorklog

/-- The external world of one report invocation. -/
structure JiraEnv where
  /-- `JIRA_USER_EMAIL`, checked non-absent at startup. -/
  email : String
  /-- The full, untruncated result set the JQL search would match;
  `none` models a search response without an `issues` field.  The model
  applies the `maxResults` truncation the server performs
  (`issuesSearchResponseIssues`). -/
  allMatchingIssues : Option (List Issue)
  /-- `jiraClient.issueWorklogs.getIssueWorklog`, keyed by issue key.
  The `startedAfter` filtering is the server's business and is part of this
  function. -/
  fetchWorklogs : String → WorklogResponse
  /-- JS `+new Date(s)`, used only by the sort comparator; modelled as an
  arbitrary total parse function supplied by the environment. -/
  parseDate : String → Int

/-- The `maxResults: 100` literal passed to `searchForIssuesUsingJql` by both
entry points. -/
def searchMaxResults : Nat := 100

/-- The `issues` field of the search response: the server returns at most
`maxResults` of the matching issues, in order. -/
def issuesSearchResponseIssues (env : JiraEnv) : Option (List Issue) :=
  env.allMatchingIssues.map (fun issues => issues.take searchMaxResults)

/-- JS `Map.prototype.set`: replace the value at an existing key in place
(keeping its position), otherwise append the binding. -/
def mapSet (m : List (String × α)) (k : String) (v : α) : List (String × α) :=
  if m.any (fun p => p.1 == k) then
    m.map (fun p => if p.1 == k then (k, v) else p)
  else
    m ++ [(k, v)]

/-- `issueByIdMap`: `issues.forEach(issue => issueByIdMap.set(issue.id, issue))`. -/
def buildIssueByIdMap (issues : List Issue) : List (String × Issue) :=
  issues.foldl (fun m issue => mapSet m issue.id issue) []

/-- The filter predicate `worklog.author?.emailAddress === email`:
strict equality of a `string | undefined` against the configured (defined)
email holds exactly when the author and address are present and equal. -/
def authorMatches (email : String) (w : RawWorklog) : Bool :=
  (w.author.bind Author.emailAddress) == some email

/-- The object literal built by the CLI variant (`src/index.ts`):
`comment: worklog.comment && extractTextFromJiraDocumentNode(worklog.comment)`
leaves the comment `undefined` when the record has none, hence
`comment : Option String`. -/
structure CliWorklog where
  started : String
  issue : String
  timeSpentInHours : ℚ
  comment : Option String
deriving DecidableEq

/-- The object literal built by the document variant:
`comment: (worklog.comment && extract(worklog.comment)) ?? ''` always yields
a string. -/
structure DocWorklog where
  started : String
  issue : String
  timeSpentInHours : ℚ
  comment : String
deriving DecidableEq

/-- Normalization of one raw record in the CLI variant.  The TypeScript
non-null assertions are erased at runtime: an absent `started` flows on and
crashes downstream (the day-extraction `started.split('T')[0]` throws in both
modes), and `issueByIdMap.get(worklog.issueId!)!.key` throws right here when
the id is absent or unmapped; both are surfaced as `Except.error`. -/
def normalizeWorklogCli (issueById : List (String × Issue)) (w : RawWorklog) :
    Except String CliWorklog := do
  let started ← match w.started with
    | some s => Except.ok s
    | none => Except.error "worklog.started is undefined"
  let issue ← match w.issueId.bind (fun issueId => issueById.lookup issueId) with
    | some issue => Except.ok issue
    | none => Except.error "issueByIdMap.get(worklog.issueId) is undefined"
  Except.ok
    { started := started
      issue := issue.key
      timeSpentInHours := w.timeSpentSeconds.getD 0 / 3600
      comment := w.comment.map extractTextFromJiraDocumentNode }

/-- Normalization of one raw record in the document variant; identical to
`normalizeWorklogCli` except for the trailing `?? ''` on the comment. -/
def normalizeWorklogDoc (issueById : List (String × Issue)) (w : RawWorklog) :
    Except String DocWorklog := do
  let started ← match w.started with
    | some s => Except.ok s
    | none => Except.error "worklog.started is undefined"
  let issue ← match w.issueId.bind (fun issueId => issueById.lookup issueId) with
    | some issue => Except.ok issue
    | none => Except.error "issueByIdMap.get(worklog.issueId) is undefined"
  Except.ok
    { started := started
      issue := issue.key
      timeSpentInHours := w.timeSpentSeconds.getD 0 / 3600
      comment := (w.comment.map extractTextFromJiraDocumentNode).getD "" }

/-- Characters up to (excluding) the first occurrence of `sep`. -/
def takeUntilChar : List Char → Char → List Char
  | [], _ => []
  | c :: rest, sep => if c = sep then [] else c :: takeUntilChar rest sep

/-- `worklog.started.split('T')[0]`: the first segment of splitting at the
one-character separator `'T'` is the prefix up to the first `'T'` (the whole
string when no `'T'` occurs; the empty string splits to `[""]`, whose first
element is `""`). -/
def dayOf (started : String) : String :=
  ⟨takeUntilChar started.data 'T'⟩

/-- The `worklogsPerIssue.flatMap(... filter ... map ...).sort(comparator)`
stage of the CLI variant, over the already-fetched responses.  The numeric
comparator `+new Date(a.started) - +new Date(b.started)` sorts ascending by
the parsed timestamp. -/
def cliNormalizedWorklogs (env : JiraEnv) (issueById : List (String × Issue))
    (responses : List WorklogResponse) : Except String (List CliWorklog) := do
  let worklogLists ← responses.mapM (fun resp =>
    (resp.worklogs.filter (authorMatches env.email)).mapM (normalizeWorklogCli issueById))
  Except.ok (worklogLists.flatten.mergeSort
    (fun a b => decide (env.parseDate a.started ≤ env.parseDate b.started)))

/-- Same stage in the document variant. -/
def docNormalizedWorklogs (env : JiraEnv) (issueById : List (String × Issue))
    (responses : List WorklogResponse) : Except String (List DocWorklog) := do
  let worklogLists ← responses.mapM (fun resp =>
    (resp.worklogs.filter (authorMatches env.email)).mapM (normalizeWorklogDoc issueById))
  Except.ok (worklogLists.flatten.mergeSort
    (fun a b => decide (env.parseDate a.started ≤ env.parseDate b.started)))

/-- The per-day accumulator `{ timeSpentInHours: number, issues: string[] }`. -/
structure DailyWorklog where
  timeSpentInHours : ℚ
  issues : List String
deriving DecidableEq

/-- One step of the daily-summary `reduce` (identical in both variants):
`if (!dailyWorklogs.has(day)) dailyWorklogs.set(day, {0, []})`, then mutate the
stored accumulator in place, adding the hours and appending the issue key only
if not already present.  The JS `Map` preserves insertion order; the model is
an association list updated in place. -/
def dailyStep (dailyWorklogs : List (String × DailyWorklog)) (day issue : String)
    (hours : ℚ) : List (String × DailyWorklog) :=
  let m := if dailyWorklogs.any (fun p => p.1 == day) then dailyWorklogs
           else dailyWorklogs ++ [(day, ⟨0, []⟩)]
  m.map (fun p =>
    if p.1 == day then
      (p.1, ⟨p.2.timeSpentInHours + hours,
             if issue ∈ p.2.issues then p.2.issues else p.2.issues ++ [issue]⟩)
    else p)

/-- The daily-summary `reduce` over the normalized worklogs, generic over the
entry carrier so that both variants share it (they differ only in the comment
field, which the fold does not read). -/
def dailyFold (startedOf issueOf : α → String) (hoursOf : α → ℚ)
    (entries : List α) : List (String × DailyWorklog) :=
  entries.foldl
    (fun acc e => dailyStep acc (dayOf (startedOf e)) (issueOf e) (hoursOf e)) []

/-- `Array.from(map.entries()).map(([day, s]) => [day, s.timeSpentInHours, s.issues.join(', ')])`. -/
def dailyRows (summaries : List (String × DailyWorklog)) : List (List Cell) :=
  summaries.map (fun p =>
    [Cell.str p.1, Cell.num p.2.timeSpentInHours,
     Cell.str (String.intercalate ", " p.2.issues)])

/-- The aggregation mode enum. -/
inductive WorklogMode where
  | Detailed
  | DailySummary
deriving DecidableEq

/-- The document-variant entry point `getMyWorklogsForPeriod` (its `fromDate`,
`toDate` arguments only feed the JQL string and `startedAfter` parameter of the
external calls, which live inside `env`).  Returns the row matrix. -/
def getMyWorklogsForPeriod (env : JiraEnv) (mode : WorklogMode) :
    Except String (List (List Cell)) := do
  match issuesSearchResponseIssues env with
  | none => Except.ok []
  | some issues =>
    let issueByIdMap := buildIssueByIdMap issues
    let worklogsPerIssue := issues.map (fun issue => env.fetchWorklogs issue.key)
    let worklogs ← docNormalizedWorklogs env issueByIdMap worklogsPerIssue
    let hoursSum := worklogs.foldl (fun sum w => sum + w.timeSpentInHours) 0
    match mode with
    | .Detailed =>
      let csvEntries := worklogs.map (fun w =>
        [Cell.str (dayOf w.started), Cell.str w.issue,
         Cell.fmtNum w.timeSpentInHours, Cell.str w.comment])
      Except.ok
        ([[Cell.str "Date", Cell.str "Issue", Cell.str "Hours spent", Cell.str "Comment"]]
          ++ csvEntries
          ++ [[Cell.str "Total", Cell.str "", Cell.fmtNum hoursSum, Cell.str ""]])
    | .DailySummary =>
      let csvEntries := dailyRows
        (dailyFold DocWorklog.started DocWorklog.issue DocWorklog.timeSpentInHours worklogs)
      Except.ok
        ([[Cell.str "Date", Cell.str "Hours spent", Cell.str "Issues"]]
          ++ csvEntries
          ++ [[Cell.str "Total", Cell.fmtNum hoursSum, Cell.str ""]])

/-- The CLI entry point `getMyWorklogsSince` (`src/index.ts`).  It prints a
literal header line and then the CSV encoding of the row matrix; the
observable output is modelled as the pair (header line, row matrix handed to
the CSV encoder).  `Except.ok none` models the early `return` that prints
nothing. -/
def getMyWorklogsSince (env : JiraEnv) (mode : WorklogMode) :
    Except String (Option (String × List (List Cell))) := do
  match issuesSearchResponseIssues env with
  | none => Except.ok none
  | some issues =>
    let issueByIdMap := buildIssueByIdMap issues
    let worklogsPerIssue := issues.map (fun issue => env.fetchWorklogs issue.key)
    let worklogs ← cliNormalizedWorklogs env issueByIdMap worklogsPerIssue
    match mode with
    | .Detailed =>
      let csvEntries := worklogs.map (fun w =>
        [Cell.str (dayOf w.started), Cell.str w.issue,
         Cell.fmtNum w.timeSpentInHours,
         match w.comment with
         | some s => Cell.str s
         | none => Cell.undef])
      Except.ok (some ("Date,Issue,Hours spent,Comment", csvEntries))
    | .DailySummary =>
      let csvEntries := dailyRows
        (dailyFold CliWorklog.started CliWorklog.issue CliWorklog.timeSpentInHours worklogs)
      Except.ok (some ("Date,Hours,Issues", csvEntries))

/-! ## The report-period selection logic of the document variant

JS `Date.prototype.setMonth` / `setDate` follow the ECMAScript `MakeDay`
semantics: the month argument is folded into the year by floor
division/modulo, and the day argument is an offset from the first of the
resulting month (day 0 is the last day of the previous month, day 32 of a
31-day month is the 1st of the next, and so on).  Time-of-day is irrelevant
here (`setHours(0,0,0,0)` and the implicit time of `new Date()` never reach a
comparison), so a date is modelled as a normalized (year, 0-based month, day)
triple. -/

/-- Gregorian leap year. -/
def isLeapYear (y : Int) : Bool :=
  (y % 4 == 0 && y % 100 != 0) || y % 400 == 0

/-- Number of days of 0-based month `m` of year `y` (months ≥ 11 behave as
December; `normMonth` always passes `m ≤ 11`). -/
def daysInMonth (y : Int) (m : Nat) : Nat :=
  match m with
  | 0 => 31
  | 1 => if isLeapYear y then 29 else 28
  | 2 => 31
  | 3 => 30
  | 4 => 31
  | 5 => 30
  | 6 => 31
  | 7 => 31
  | 8 => 30
  | 9 => 31
  | 10 => 30
  | _ => 31

/-- Fold an arbitrary month number into the year (ECMAScript
`ym = y + floor(m / 12)`, `mn = m modulo 12`). -/
def normMonth (y m : Int) : Int × Nat :=
  (y + m.fdiv 12, (m.emod 12).toNat)

/-- Move a day offset `d < 1` back into range by borrowing whole months. -/
def borrowDays (y : Int) (m : Nat) (d : Int) : Int × Nat × Int :=
  if _h : d < 1 then
    let p := normMonth y ((m : Int) - 1)
    borrowDays p.1 p.2 (d + daysInMonth p.1 p.2)
  else (y, m, d)
termination_by (1 - d).toNat
decreasing_by
  have h28 : 28 ≤ daysInMonth (normMonth y ((m : Int) - 1)).1 (normMonth y ((m : Int) - 1)).2 := by
    unfold daysInMonth
    split <;> first
      | omega
      | (split <;> omega)
  omega

/-- Move a day offset past the month's end forward by carrying whole months. -/
def carryDays (y : Int) (m : Nat) (d : Int) : Int × Nat × Int :=
  if _h : (daysInMonth y m : Int) < d then
    let p := normMonth y ((m : Int) + 1)
    carryDays p.1 p.2 (d - daysInMonth y m)
  else (y, m, d)
termination_by d.toNat
decreasing_by
  have h28 : 28 ≤ daysInMonth y m := by
    unfold daysInMonth
    split <;> first
      | omega
      | (split <;> omega)
  omega

/-- A JS date, normalized: `month ≤ 11` and `1 ≤ day ≤ daysInMonth`
whenever built by `normDate` from such a date. -/
structure JSDate where
  year : Int
  month : Nat
  day : Int
deriving DecidableEq

/-- ECMAScript `MakeDay`: normalize the month into the year, then the day
offset into the month. -/
def normDate (y m d : Int) : JSDate :=
  let p := normMonth y m
  let b := borrowDays p.1 p.2 d
  let c := carryDays b.1 b.2.1 b.2.2
  ⟨c.1, c.2.1, c.2.2⟩

/-- `date.setDate(d)` (returning the updated date). -/
def JSDate.setDate (date : JSDate) (d : Int) : JSDate :=
  normDate date.year date.month d

/-- `date.setMonth(m)` (returning the updated date). -/
def JSDate.setMonth (date : JSDate) (m : Int) : JSDate :=
  let p := normMonth date.year m
  let b := borrowDays p.1 p.2 date.day
  let c := carryDays b.1 b.2.1 b.2.2
  ⟨c.1, c.2.1, c.2.2⟩

/-- `const firstDayOfCurrentMonth = new Date(); …setDate(1); …setHours(0,0,0,0)`
(time zeroing has no observable effect in this model). -/
def firstDayOfCurrentMonth (today : JSDate) : JSDate :=
  today.setDate 1

/-- `const firstDayOfPreviousMonth = new Date(firstDayOfCurrentMonth);
…setMonth(firstDayOfCurrentMonth.getMonth() - 1)`. -/
def firstDayOfPreviousMonth (today : JSDate) : JSDate :=
  (firstDayOfCurrentMonth today).setMonth
    ((firstDayOfCurrentMonth today).month - 1 : Int)

/-- `getLastDayOfMonth`: copy, `setMonth(getMonth() + 1)`, `setDate(0)`. -/
def getLastDayOfMonth (date : JSDate) : JSDate :=
  (date.setMonth ((date.month : Int) + 1)).setDate 0

/-- `const reportDateStart = currentDate.getDate() > 15 ?
firstDayOfCurrentMonth : firstDayOfPreviousMonth`. -/
def reportDateStart (today : JSDate) : JSDate :=
  if 15 < today.day then firstDayOfCurrentMonth today else firstDayOfPreviousMonth today

/-- `const reportDateEnd = getLastDayOfMonth(reportDateStart)`. -/
def reportDateEnd (today : JSDate) : JSDate :=
  getLastDayOfMonth (reportDateStart today)

/-! ## Specification-side definitions

These render the spec's language ("no duplicates, first-encountered order,
exactly the distinct keys") as directly readable functions; the theorems below
relate the embedded code to them. -/

/-- First-occurrence deduplication: keep each string the first time it
appears, drop all later occurrences.  The result is duplicate-free, preserves
first-encountered order, and has the same members as the input. -/
def dedupFirst : List String → List String
  | [] => []
  | a :: l => a :: dedupFirst (l.filter (fun b => b ≠ a))
termination_by l => l.length
decreasing_by
  have := List.length_filter_le (fun b => decide (b ≠ a)) l
  simp at this ⊢
  omega

/-- The daily-summary aggregation, stated the way the spec reads: one row per
distinct day in first-encountered order; each day carries the sum of the hours
of that day's entries and the first-occurrence-deduplicated list of that day's
issue keys. -/
def dailySpec (startedOf issueOf : α → String) (hoursOf : α → ℚ)
    (entries : List α) : List (String × DailyWorklog) :=
  (dedupFirst (entries.map (fun e => dayOf (startedOf e)))).map (fun day =>
    (day,
     ⟨((entries.filter (fun e => dayOf (startedOf e) = day)).map hoursOf).sum,
      dedupFirst ((entries.filter (fun e => dayOf (startedOf e) = day)).map issueOf)⟩))

/-- The numeric value carried by a cell (strings and `undefined` carry
none; used to state column-sum invariants). -/
def cellNum : Cell → ℚ
  | .num q => q
  | .fmtNum q => q
  | _ => 0

/-! ## Concrete test fixtures (used by witnesses and counterexamples) -/

/-- A sample issue as the search returns it. -/
def testIssue : Issue := ⟨"10001", "AB-1"⟩

/-- The id→issue map for the sample issue. -/
def testIssueById : List (String × Issue) := [("10001", testIssue)]

/-- A raw record by the configured user with no comment. -/
def testRawNoComment : RawWorklog :=
  { author := some ⟨some "user@example.com"⟩
    started := some "2024-01-01T09:00"
    issueId := some "10001"
    timeSpentSeconds := none
    comment := none }

/-- A fetch that returns no worklogs for any key. -/
def emptyFetch : String → WorklogResponse := fun _ => ⟨[]⟩

/-- A degenerate timestamp parser. -/
def zeroParse : String → Int := fun _ => 0

/-- An environment whose search response has no `issues` field. -/
def testEnvNoIssues : JiraEnv := ⟨"user@example.com", none, emptyFetch, zeroParse⟩

/-- An environment whose search matches no issues (empty `issues` list). -/
def testEnvEmptyIssues : JiraEnv :=
  ⟨"user@example.com", some [], emptyFetch, zeroParse⟩

/-! ## Helper lemmas -/

theorem join_cons (a : String) (l : List String) :
    String.join (a :: l) = a ++ String.join l := by
  apply String.ext
  simp

theorem extractContents_eq_join (l : List Document) :
    extractContents l = String.join (l.map extractTextFromJiraDocumentNode) := by
  induction l with
  | nil =>
    apply String.ext
    simp [extractContents]
  | cons node rest ih =>
    rw [List.map_cons, join_cons, extractContents, ih]

theorem mem_dedupFirst {x : String} : ∀ {l : List String}, x ∈ dedupFirst l ↔ x ∈ l := by
  intro l
  induction l using dedupFirst.induct with
  | case1 => simp [dedupFirst]
  | case2 a l ih =>
    rw [dedupFirst]
    by_cases hxa : x = a
    · simp [hxa]
    · simp only [List.mem_cons, hxa, false_or]
      rw [ih]
      simp [List.mem_filter, hxa]

theorem nodup_dedupFirst : ∀ (l : List String), (dedupFirst l).Nodup := by
  intro l
  induction l using dedupFirst.induct with
  | case1 => simp [dedupFirst]
  | case2 a l ih =>
    rw [dedupFirst]
    refine List.nodup_cons.mpr ⟨?_, ih⟩
    intro hmem
    have := (mem_dedupFirst).mp hmem
    simp [List.mem_filter] at this

theorem dedupFirst_append (l : List String) (x : String) :
    dedupFirst (l ++ [x]) =
      if x ∈ l then dedupFirst l else dedupFirst l ++ [x] := by
  induction l using dedupFirst.induct with
  | case1 => simp [dedupFirst]
  | case2 a l ih =>
    by_cases hxa : x = a
    · subst hxa
      simp only [List.cons_append, dedupFirst, List.filter_append]
      simp [dedupFirst]
    · simp only [List.cons_append, dedupFirst, List.filter_append]
      have hfx : List.filter (fun b => decide (b ≠ a)) [x] = [x] := by
        simp [hxa]
      rw [hfx, ih]
      have hmemf : x ∈ List.filter (fun b => decide (b ≠ a)) l ↔ x ∈ l := by
        simp [List.mem_filter, hxa]
      by_cases hxl : x ∈ l
      · simp [hmemf, hxl, hxa]
      · simp [hmemf, hxl, hxa]

theorem sum_map_filter_split (l : List α) (p : α → Bool) (val : α → ℚ) :
    ((l.filter p).map val).sum + ((l.filter (fun x => !p x)).map val).sum
      = (l.map val).sum := by
  induction l with
  | nil => simp
  | cons e rest ih =>
    by_cases hp : p e
    · simp only [List.filter_cons, hp, if_pos, List.map_cons, List.sum_cons,
        Bool.not_true, if_neg, Bool.false_eq_true, not_false_iff]
      rw [add_assoc, ih]
    · simp only [List.filter_cons, hp, Bool.not_false, if_pos, if_neg,
        Bool.false_eq_true, not_false_iff, List.map_cons, List.sum_cons]
      rw [add_left_comm, ih]

theorem sum_map_dedupFirst_filter (key : α → String) (val : α → ℚ) :
    ∀ l : List α,
    ((dedupFirst (l.map key)).map
        (fun d => ((l.filter (fun e => key e = d)).map val).sum)).sum
      = (l.map val).sum
  | [] => by simp [dedupFirst]
  | e :: rest => by
    have ih := sum_map_dedupFirst_filter key val
      (rest.filter (fun x => key x ≠ key e))
    rw [List.map_cons, dedupFirst, List.filter_map, List.map_cons, List.sum_cons]
    simp only [Function.comp_def]
    have hhead : (((e :: rest).filter (fun x => key x = key e)).map val).sum
        = val e + ((rest.filter (fun x => key x = key e)).map val).sum := by
      simp [List.filter_cons]
    have htail :
        ((List.map key (rest.filter (fun x => decide (key x ≠ key e) : α → Bool))
            |> dedupFirst).map
          (fun d => (((e :: rest).filter (fun x => key x = d)).map val).sum)).sum
        = (((rest.filter (fun x => key x ≠ key e)).map val)).sum := by
      rw [← ih]
      congr 1
      apply List.map_congr_left
      intro d hd
      have hdne : d ≠ key e := by
        have hd' := mem_dedupFirst.mp hd
        rcases List.mem_map.mp hd' with ⟨x, hx, hkx⟩
        have := (List.mem_filter.mp hx).2
        simp only [decide_not, Bool.not_eq_eq_eq_not, Bool.not_true,
          decide_eq_false_iff_not] at this
        rw [← hkx]
        intro hcontra
        exact this hcontra
      have hfe : (e :: rest).filter (fun x => key x = d)
          = rest.filter (fun x => key x = d) := by
        simp [List.filter_cons, hdne, Ne.symm hdne]
      rw [hfe]
      congr 1
      rw [List.filter_filter]
      congr 1
      apply List.filter_congr
      intro x _
      by_cases hkd : key x = d
      · have : key x ≠ key e := by rw [hkd]; exact hdne
        simp [hkd, this, hdne]
      · simp [hkd]
    rw [hhead, htail]
    have hsplit := sum_map_filter_split rest (fun x => decide (key x = key e)) val
    have hne : (rest.filter (fun x => key x ≠ key e))
        = rest.filter (fun x => !decide (key x = key e)) := by
      apply List.filter_congr
      intro x _
      simp
    rw [hne, add_assoc, hsplit, List.map_cons, List.sum_cons]
termination_by l => l.length
decreasing_by
  have := List.length_filter_le (fun x => decide (key x ≠ key e)) rest
  simp at this ⊢
  omega

theorem dailyStep_dailySpec (startedOf issueOf : α → String) (hoursOf : α → ℚ)
    (l : List α) (e : α) :
    dailyStep (dailySpec startedOf issueOf hoursOf l)
        (dayOf (startedOf e)) (issueOf e) (hoursOf e)
      = dailySpec startedOf issueOf hoursOf (l ++ [e]) := by
  have hdays : (l ++ [e]).map (fun x => dayOf (startedOf x))
      = l.map (fun x => dayOf (startedOf x)) ++ [dayOf (startedOf e)] := by
    simp
  by_cases hd : dayOf (startedOf e) ∈ l.map (fun x => dayOf (startedOf x))
  · -- the day already has a row: the accumulator is updated in place
    have hany : (dailySpec startedOf issueOf hoursOf l).any
        (fun p => p.1 == dayOf (startedOf e)) = true := by
      rw [List.any_eq_true]
      refine ⟨(dayOf (startedOf e),
        ⟨((l.filter (fun x => dayOf (startedOf x) = dayOf (startedOf e))).map hoursOf).sum,
         dedupFirst ((l.filter (fun x => dayOf (startedOf x) = dayOf (startedOf e))).map issueOf)⟩),
        ?_, by simp⟩
      exact List.mem_map.mpr ⟨dayOf (startedOf e), mem_dedupFirst.mpr hd, rfl⟩
    rw [dailyStep]
    rw [hany]
    simp only [if_true]
    rw [dailySpec, dailySpec, hdays, dedupFirst_append, if_pos hd, List.map_map]
    apply List.map_congr_left
    intro day hday
    by_cases hde : day = dayOf (startedOf e)
    · subst hde
      have hfadd : (l ++ [e]).filter
            (fun x => dayOf (startedOf x) = dayOf (startedOf e))
          = l.filter (fun x => dayOf (startedOf x) = dayOf (startedOf e)) ++ [e] := by
        simp [List.filter_append]
      by_cases hk : issueOf e ∈ (l.filter
          (fun x => dayOf (startedOf x) = dayOf (startedOf e))).map issueOf
      · have hk2 : issueOf e ∈ dedupFirst ((l.filter
            (fun x => dayOf (startedOf x) = dayOf (startedOf e))).map issueOf) :=
          mem_dedupFirst.mpr hk
        simp [hfadd, dedupFirst_append, hk, hk2]
      · have hk2 : issueOf e ∉ dedupFirst ((l.filter
            (fun x => dayOf (startedOf x) = dayOf (startedOf e))).map issueOf) :=
          fun hmem => hk (mem_dedupFirst.mp hmem)
        simp [hfadd, dedupFirst_append, hk, hk2]
    · have hde2 : ¬ dayOf (startedOf e) = day := fun hc => hde hc.symm
      have hne : (day == dayOf (startedOf e)) = false := by
        simp [hde]
      have hfe : (l ++ [e]).filter (fun x => dayOf (startedOf x) = day)
          = l.filter (fun x => dayOf (startedOf x) = day) := by
        simp [List.filter_append, hde2]
      simp [hne, hfe, hde]
  · -- a fresh day: a new row is appended and then updated in place
    have hany : (dailySpec startedOf issueOf hoursOf l).any
        (fun p => p.1 == dayOf (startedOf e)) = false := by
      rw [Bool.eq_false_iff]
      intro hcontra
      rw [List.any_eq_true] at hcontra
      rcases hcontra with ⟨p, hp, hpd⟩
      rcases List.mem_map.mp hp with ⟨day, hday, rfl⟩
      have : day = dayOf (startedOf e) := by simpa using hpd
      exact hd (this ▸ mem_dedupFirst.mp hday)
    rw [dailyStep]
    rw [hany]
    simp only [Bool.false_eq_true, if_false]
    rw [dailySpec, dailySpec, hdays, dedupFirst_append, if_neg hd,
      List.map_append, List.map_append, List.map_map]
    congr 1
    · apply List.map_congr_left
      intro day hday
      have hde : day ≠ dayOf (startedOf e) := by
        intro hcontra
        exact hd (hcontra ▸ mem_dedupFirst.mp hday)
      have hde2 : ¬ dayOf (startedOf e) = day := fun hc => hde hc.symm
      have hne : (day == dayOf (startedOf e)) = false := by
        simp [hde]
      have hfe : (l ++ [e]).filter (fun x => dayOf (startedOf x) = day)
          = l.filter (fun x => dayOf (startedOf x) = day) := by
        simp [List.filter_append, hde2]
      simp [hne, hfe, hde]
    · have hfl : l.filter (fun x => dayOf (startedOf x) = dayOf (startedOf e)) = [] := by
        rw [List.filter_eq_nil_iff]
        intro x hx
        simp only [decide_eq_true_eq]
        intro hcontra
        exact hd (List.mem_map.mpr ⟨x, hx, hcontra⟩)
      simp [List.filter_append, hfl, dedupFirst]


theorem dailyFold_eq_dailySpec (startedOf issueOf : α → String) (hoursOf : α → ℚ)
    (entries : List α) :
    dailyFold startedOf issueOf hoursOf entries
      = dailySpec startedOf issueOf hoursOf entries := by
  induction entries using List.reverseRecOn with
  | nil => simp [dailyFold, dailySpec, dedupFirst]
  | append_singleton l e ih =>
    rw [dailyFold, List.foldl_append]
    rw [show l.foldl (fun acc x =>
        dailyStep acc (dayOf (startedOf x)) (issueOf x) (hoursOf x)) []
      = dailyFold startedOf issueOf hoursOf l from rfl]
    rw [ih, List.foldl_cons, List.foldl_nil]
    exact dailyStep_dailySpec startedOf issueOf hoursOf l e

theorem except_bind_ok (v : α) (f : α → Except ε β) :
    (Except.ok v >>= f) = f v := rfl

theorem except_bind_error (msg : ε) (f : α → Except ε β) :
    (Except.error msg >>= f : Except ε β) = Except.error msg := rfl

theorem mapM_ok_length (f : α → Except ε β) :
    ∀ (l : List α) (es : List β), l.mapM f = Except.ok es → es.length = l.length
  | [], es, h => by
    simp only [List.mapM_nil] at h
    cases h
    rfl
  | a :: l, es, h => by
    simp only [List.mapM_cons] at h
    cases hf : f a with
    | error msg =>
      rw [hf, except_bind_error] at h
      cases h
    | ok b =>
      rw [hf, except_bind_ok] at h
      cases hm : l.mapM f with
      | error msg =>
        rw [hm, except_bind_error] at h
        cases h
      | ok bs =>
        rw [hm, except_bind_ok] at h
        cases h
        simp [mapM_ok_length f l bs hm]

theorem foldl_add_eq_sum (hoursOf : α → ℚ) :
    ∀ (l : List α) (init : ℚ),
      l.foldl (fun sum w => sum + hoursOf w) init = init + (l.map hoursOf).sum
  | [], init => by simp
  | e :: rest, init => by
    rw [List.foldl_cons, foldl_add_eq_sum hoursOf rest (init + hoursOf e)]
    simp [add_assoc]

theorem getMyWorklogsForPeriod_ok_daily (env : JiraEnv) (issues : List Issue)
    (ws : List DocWorklog)
    (h : issuesSearchResponseIssues env = some issues)
    (hws : docNormalizedWorklogs env (buildIssueByIdMap issues)
        (issues.map (fun issue => env.fetchWorklogs issue.key)) = Except.ok ws) :
    getMyWorklogsForPeriod env .DailySummary =
      Except.ok ([[Cell.str "Date", Cell.str "Hours spent", Cell.str "Issues"]]
        ++ dailyRows (dailyFold DocWorklog.started DocWorklog.issue
            DocWorklog.timeSpentInHours ws)
        ++ [[Cell.str "Total",
             Cell.fmtNum (ws.foldl (fun sum w => sum + w.timeSpentInHours) 0),
             Cell.str ""]]) := by
  unfold getMyWorklogsForPeriod
  rw [h]
  dsimp only
  rw [hws, except_bind_ok]

theorem getMyWorklogsForPeriod_ok_detailed (env : JiraEnv) (issues : List Issue)
    (ws : List DocWorklog)
    (h : issuesSearchResponseIssues env = some issues)
    (hws : docNormalizedWorklogs env (buildIssueByIdMap issues)
        (issues.map (fun issue => env.fetchWorklogs issue.key)) = Except.ok ws) :
    getMyWorklogsForPeriod env .Detailed =
      Except.ok ([[Cell.str "Date", Cell.str "Issue", Cell.str "Hours spent",
          Cell.str "Comment"]]
        ++ ws.map (fun w => [Cell.str (dayOf w.started), Cell.str w.issue,
            Cell.fmtNum w.timeSpentInHours, Cell.str w.comment])
        ++ [[Cell.str "Total", Cell.str "",
             Cell.fmtNum (ws.foldl (fun sum w => sum + w.timeSpentInHours) 0),
             Cell.str ""]]) := by
  unfold getMyWorklogsForPeriod
  rw [h]
  dsimp only
  rw [hws, except_bind_ok]

theorem getMyWorklogsSince_ok_daily (env : JiraEnv) (issues : List Issue)
    (ws : List CliWorklog)
    (h : issuesSearchResponseIssues env = some issues)
    (hws : cliNormalizedWorklogs env (buildIssueByIdMap issues)
        (issues.map (fun issue => env.fetchWorklogs issue.key)) = Except.ok ws) :
    getMyWorklogsSince env .DailySummary =
      Except.ok (some ("Date,Hours,Issues",
        dailyRows (dailyFold CliWorklog.started CliWorklog.issue
            CliWorklog.timeSpentInHours ws))) := by
  unfold getMyWorklogsSince
  rw [h]
  dsimp only
  rw [hws, except_bind_ok]

theorem getMyWorklogsSince_ok_detailed (env : JiraEnv) (issues : List Issue)
    (ws : List CliWorklog)
    (h : issuesSearchResponseIssues env = some issues)
    (hws : cliNormalizedWorklogs env (buildIssueByIdMap issues)
        (issues.map (fun issue => env.fetchWorklogs issue.key)) = Except.ok ws) :
    getMyWorklogsSince env .Detailed =
      Except.ok (some ("Date,Issue,Hours spent,Comment",
        ws.map (fun w => [Cell.str (dayOf w.started), Cell.str w.issue,
          Cell.fmtNum w.timeSpentInHours,
          match w.comment with
          | some s => Cell.str s
          | none => Cell.undef]))) := by
  unfold getMyWorklogsSince
  rw [h]
  dsimp only
  rw [hws, except_bind_ok]

theorem docNormalizedWorklogs_ok (env : JiraEnv) (issueById : List (String × Issue))
    (responses : List WorklogResponse) (ws : List DocWorklog)
    (h : docNormalizedWorklogs env issueById responses = Except.ok ws) :
    ∃ worklogLists,
      responses.mapM (fun resp =>
        (resp.worklogs.filter (authorMatches env.email)).mapM
          (normalizeWorklogDoc issueById)) = Except.ok worklogLists ∧
      ws = worklogLists.flatten.mergeSort
        (fun a b => decide (env.parseDate a.started ≤ env.parseDate b.started)) := by
  unfold docNormalizedWorklogs at h
  cases hm : responses.mapM (fun resp =>
      (resp.worklogs.filter (authorMatches env.email)).mapM
        (normalizeWorklogDoc issueById)) with
  | error msg =>
    rw [hm, except_bind_error] at h
    cases h
  | ok worklogLists =>
    rw [hm, except_bind_ok] at h
    cases h
    exact ⟨worklogLists, rfl, rfl⟩

theorem cliNormalizedWorklogs_ok (env : JiraEnv) (issueById : List (String × Issue))
    (responses : List WorklogResponse) (ws : List CliWorklog)
    (h : cliNormalizedWorklogs env issueById responses = Except.ok ws) :
    ∃ worklogLists,
      responses.mapM (fun resp =>
        (resp.worklogs.filter (authorMatches env.email)).mapM
          (normalizeWorklogCli issueById)) = Except.ok worklogLists ∧
      ws = worklogLists.flatten.mergeSort
        (fun a b => decide (env.parseDate a.started ≤ env.parseDate b.started)) := by
  unfold cliNormalizedWorklogs at h
  cases hm : responses.mapM (fun resp =>
      (resp.worklogs.filter (authorMatches env.email)).mapM
        (normalizeWorklogCli issueById)) with
  | error msg =>
    rw [hm, except_bind_error] at h
    cases h
  | ok worklogLists =>
    rw [hm, except_bind_ok] at h
    cases h
    exact ⟨worklogLists, rfl, rfl⟩

/-! ## The claims -/

/-- **C6**: for every rich-text node, the flattener returns the concatenation,
in order, of the flattening of each child node, followed by the node's own
direct text payload (children's text strictly before the node's own text),
with an absent text payload contributing the empty string; a node with no
children (absent or empty child list) returns exactly its own text. -/
theorem extract_preorder_concat (text : Option String)
    (content : Option (List Document)) :
    extractTextFromJiraDocumentNode (.mk text content)
      = String.join ((content.getD []).map extractTextFromJiraDocumentNode)
        ++ text.getD "" ∧
    (∀ t : String, extractTextFromJiraDocumentNode (.mk (some t) none) = t) ∧
    (∀ t : String, extractTextFromJiraDocumentNode (.mk (some t) (some [])) = t) ∧
    extractTextFromJiraDocumentNode (.mk none none) = "" := by
  refine ⟨?_, ?_, ?_, ?_⟩
  · rw [extractTextFromJiraDocumentNode, extractContents_eq_join]
  · intro t
    rw [extractTextFromJiraDocumentNode]
    apply String.ext
    simp [extractContents]
  · intro t
    rw [extractTextFromJiraDocumentNode]
    apply String.ext
    simp [extractContents]
  · rw [extractTextFromJiraDocumentNode]
    apply String.ext
    simp [extractContents]

/-- **C7**: for every collection of per-issue worklog payloads, in whatever
order the fetches completed and whatever the record order inside each payload,
the normalized entry sequence each variant produces is non-decreasing in the
parsed `started` timestamp. -/
theorem normalized_entries_sorted_by_started (env : JiraEnv)
    (issueById : List (String × Issue)) (responses : List WorklogResponse) :
    (∀ ws, docNormalizedWorklogs env issueById responses = Except.ok ws →
      ws.Pairwise (fun a b => env.parseDate a.started ≤ env.parseDate b.started)) ∧
    (∀ ws, cliNormalizedWorklogs env issueById responses = Except.ok ws →
      ws.Pairwise (fun a b => env.parseDate a.started ≤ env.parseDate b.started)) := by
  constructor
  · intro ws h
    obtain ⟨worklogLists, -, rfl⟩ :=
      docNormalizedWorklogs_ok env issueById responses ws h
    have hs := @List.sorted_mergeSort DocWorklog
      (fun a b => decide (env.parseDate a.started ≤ env.parseDate b.started))
      (fun a b c hab hbc => by
        simp only [decide_eq_true_eq] at hab hbc ⊢
        omega)
      (fun a b => by
        simp only [Bool.or_eq_true, decide_eq_true_eq]
        exact Int.le_total _ _)
      worklogLists.flatten
    exact hs.imp (fun hab => by simpa using hab)
  · intro ws h
    obtain ⟨worklogLists, -, rfl⟩ :=
      cliNormalizedWorklogs_ok env issueById responses ws h
    have hs := @List.sorted_mergeSort CliWorklog
      (fun a b => decide (env.parseDate a.started ≤ env.parseDate b.started))
      (fun a b c hab hbc => by
        simp only [decide_eq_true_eq] at hab hbc ⊢
        omega)
      (fun a b => by
        simp only [Bool.or_eq_true, decide_eq_true_eq]
        exact Int.le_total _ _)
      worklogLists.flatten
    exact hs.imp (fun hab => by simpa using hab)

/-- **C8**: a raw record passes the author filter (and hence is handed to
normalization, which yields exactly one entry per retained record when it
succeeds) if and only if its author identity equals the configured email;
records with a different or absent author identity are dropped by the total
filter, never raising an error. -/
theorem author_filter_spec (email : String) (ws : List RawWorklog)
    (w : RawWorklog) (hw : w ∈ ws) :
    (w ∈ ws.filter (authorMatches email) ↔
      w.author.bind Author.emailAddress = some email) ∧
    (∀ issueById es,
      (ws.filter (authorMatches email)).mapM (normalizeWorklogDoc issueById)
          = Except.ok es → es.length = (ws.filter (authorMatches email)).length) ∧
    (∀ issueById es,
      (ws.filter (authorMatches email)).mapM (normalizeWorklogCli issueById)
          = Except.ok es → es.length = (ws.filter (authorMatches email)).length) := by
  refine ⟨?_, ?_, ?_⟩
  · rw [List.mem_filter]
    constructor
    · rintro ⟨-, hp⟩
      simpa [authorMatches] using hp
    · intro hp
      refine ⟨hw, ?_⟩
      simpa [authorMatches] using hp
  · intro issueById es h
    exact mapM_ok_length _ _ _ h
  · intro issueById es h
    exact mapM_ok_length _ _ _ h

/-- **C9**: when the search response has no `issues` field, both entry points
complete without error and produce nothing: the document variant returns the
empty row matrix (no header, data or total rows), the CLI variant returns
before printing anything. -/
theorem missing_issues_empty_output (env : JiraEnv)
    (h : env.allMatchingIssues = none) (mode : WorklogMode) :
    getMyWorklogsForPeriod env mode = Except.ok [] ∧
    getMyWorklogsSince env mode = Except.ok none := by
  have hiss : issuesSearchResponseIssues env = none := by
    simp [issuesSearchResponseIssues, h]
  constructor
  · unfold getMyWorklogsForPeriod
    rw [hiss]
  · unfold getMyWorklogsSince
    rw [hiss]

/-- **C10**: both entry points pass `maxResults: 100` to the single search
call and never fetch a further page, so the report depends only on the first
100 matching issues: each pipeline's output over the full match set equals its
output over the first 100 issues, and the issue page driving the fetches never
exceeds 100 entries — matching issues beyond it are silently omitted, not an
error. -/
theorem search_truncation_spec (env : JiraEnv) (issues : List Issue)
    (h : env.allMatchingIssues = some issues) (mode : WorklogMode) :
    getMyWorklogsForPeriod env mode =
      getMyWorklogsForPeriod
        { env with allMatchingIssues := some (issues.take 100) } mode ∧
    getMyWorklogsSince env mode =
      getMyWorklogsSince
        { env with allMatchingIssues := some (issues.take 100) } mode ∧
    issuesSearchResponseIssues env = some (issues.take 100) ∧
    ((issuesSearchResponseIssues env).getD []).length ≤ 100 := by
  have h1 : issuesSearchResponseIssues env = some (issues.take 100) := by
    simp [issuesSearchResponseIssues, h, searchMaxResults]
  have h2 : issuesSearchResponseIssues
      { env with allMatchingIssues := some (issues.take 100) }
      = some (issues.take 100) := by
    simp [issuesSearchResponseIssues, searchMaxResults, List.take_take]
  refine ⟨?_, ?_, h1, ?_⟩
  · unfold getMyWorklogsForPeriod
    rw [h1, h2]
    rfl
  · unfold getMyWorklogsSince
    rw [h1, h2]
    rfl
  · rw [h1]
    simp

/-- **C5**: for every sequence of normalized entries, the daily-summary fold
satisfies: the day totals sum to the total of all entry hours, and each day's
issue-key list is the first-occurrence deduplication of that day's issue keys
— duplicate-free, in first-encountered order, containing exactly the distinct
keys with at least one entry on that day. -/
theorem daily_aggregation_spec (startedOf issueOf : α → String)
    (hoursOf : α → ℚ) (entries : List α) :
    ((dailyFold startedOf issueOf hoursOf entries).map
        (fun p => p.2.timeSpentInHours)).sum = (entries.map hoursOf).sum ∧
    ∀ day s, (day, s) ∈ dailyFold startedOf issueOf hoursOf entries →
      s.issues = dedupFirst ((entries.filter
          (fun e => dayOf (startedOf e) = day)).map issueOf) ∧
      s.issues.Nodup ∧
      (∀ k, k ∈ s.issues ↔
        ∃ e ∈ entries, dayOf (startedOf e) = day ∧ issueOf e = k) := by
  rw [dailyFold_eq_dailySpec]
  constructor
  · rw [dailySpec, List.map_map]
    have hsum := sum_map_dedupFirst_filter
      (fun e => dayOf (startedOf e)) hoursOf entries
    simpa using hsum
  · intro day s hmem
    rw [dailySpec] at hmem
    rcases List.mem_map.mp hmem with ⟨d0, hd0, heq⟩
    have h1 : d0 = day := congrArg Prod.fst heq
    have h2 : (⟨((entries.filter
          (fun e => dayOf (startedOf e) = d0)).map hoursOf).sum,
        dedupFirst ((entries.filter
          (fun e => dayOf (startedOf e) = d0)).map issueOf)⟩ : DailyWorklog)
        = s := congrArg Prod.snd heq
    subst h1
    subst h2
    refine ⟨rfl, nodup_dedupFirst _, ?_⟩
    intro k
    rw [show (⟨((entries.filter
          (fun e => dayOf (startedOf e) = d0)).map hoursOf).sum,
        dedupFirst ((entries.filter
          (fun e => dayOf (startedOf e) = d0)).map issueOf)⟩ : DailyWorklog).issues
        = dedupFirst ((entries.filter
          (fun e => dayOf (startedOf e) = d0)).map issueOf) from rfl]
    rw [mem_dedupFirst]
    simp only [List.mem_map, List.mem_filter, decide_eq_true_eq]
    constructor
    · rintro ⟨x, ⟨hx, hdx⟩, hkx⟩
      exact ⟨x, hx, hdx, hkx⟩
    · rintro ⟨x, hx, hdx, hkx⟩
      exact ⟨x, ⟨hx, hdx⟩, hkx⟩

/-! ## Date-arithmetic lemmas -/

theorem daysInMonth_ge (y : Int) (m : Nat) : 28 ≤ daysInMonth y m := by
  unfold daysInMonth
  split <;> first
    | omega
    | (split <;> omega)

theorem normMonth_eq (y m : Int) : normMonth y m = (y + m / 12, (m % 12).toNat) := by
  unfold normMonth
  rw [Int.fdiv_eq_ediv _ (by norm_num)]
  rfl

theorem normMonth_of_lt (y : Int) (m : Nat) (hm : m < 12) :
    normMonth y (m : Int) = (y, m) := by
  rw [normMonth_eq, Prod.mk.injEq]
  constructor <;> omega

theorem normMonth_neg_one (y : Int) : normMonth y (-1) = (y - 1, 11) := by
  rw [normMonth_eq, Prod.mk.injEq]
  constructor <;> omega

theorem normMonth_twelve (y : Int) : normMonth y 12 = (y + 1, 0) := by
  rw [normMonth_eq, Prod.mk.injEq]
  constructor <;> omega

theorem borrowDays_stop (y : Int) (m : Nat) (d : Int) (h : 1 ≤ d) :
    borrowDays y m d = (y, m, d) := by
  rw [borrowDays, dif_neg (by omega)]

theorem carryDays_stop (y : Int) (m : Nat) (d : Int)
    (h : d ≤ (daysInMonth y m : Int)) :
    carryDays y m d = (y, m, d) := by
  rw [carryDays, dif_neg (by omega)]

theorem normDate_valid (y : Int) (m : Nat) (d : Int) (hm : m < 12)
    (h1 : 1 ≤ d) (h2 : d ≤ (daysInMonth y m : Int)) :
    normDate y (m : Int) d = ⟨y, m, d⟩ := by
  unfold normDate
  rw [normMonth_of_lt y m hm]
  dsimp only
  rw [borrowDays_stop y m d h1]
  dsimp only
  rw [carryDays_stop y m d h2]

theorem normDate_zero_of_pos (y : Int) (m : Nat) (hm : m < 12) (h : 1 ≤ m) :
    normDate y (m : Int) 0 = ⟨y, m - 1, (daysInMonth y (m - 1) : Int)⟩ := by
  unfold normDate
  rw [normMonth_of_lt y m hm]
  dsimp only
  rw [borrowDays, dif_pos (by omega)]
  have hc : (m : Int) - 1 = ((m - 1 : Nat) : Int) := by omega
  rw [hc, normMonth_of_lt y (m - 1) (by omega)]
  dsimp only
  have hge := daysInMonth_ge y (m - 1)
  rw [borrowDays_stop y (m - 1) _ (by omega)]
  dsimp only
  rw [carryDays_stop y (m - 1) _ (by omega)]
  simp

theorem normDate_zero_of_zero (y : Int) :
    normDate y 0 0 = ⟨y - 1, 11, 31⟩ := by
  unfold normDate
  rw [show normMonth y 0 = (y, (0 : Nat)) from by
    rw [normMonth_eq, Prod.mk.injEq]
    constructor <;> omega]
  dsimp only
  rw [borrowDays, dif_pos (by omega)]
  rw [show ((0 : Nat) : Int) - 1 = (-1 : Int) by omega, normMonth_neg_one]
  dsimp only
  have h31 : daysInMonth (y - 1) 11 = 31 := rfl
  rw [h31]
  rw [borrowDays_stop (y - 1) 11 _ (by omega)]
  dsimp only
  rw [carryDays_stop (y - 1) 11 _ (by rw [h31]; omega)]
  simp

theorem setDate_valid (y : Int) (m : Nat) (d0 d : Int) (hm : m < 12)
    (h1 : 1 ≤ d) (h2 : d ≤ (daysInMonth y m : Int)) :
    JSDate.setDate ⟨y, m, d0⟩ d = ⟨y, m, d⟩ :=
  normDate_valid y m d hm h1 h2

theorem setMonth_eq_normDate (date : JSDate) (m : Int) :
    date.setMonth m = normDate date.year m date.day := rfl

theorem getLastDayOfMonth_first (y : Int) (m : Nat) (hm : m < 12) :
    getLastDayOfMonth ⟨y, m, 1⟩ = ⟨y, m, (daysInMonth y m : Int)⟩ := by
  unfold getLastDayOfMonth
  rw [setMonth_eq_normDate]
  dsimp only
  by_cases h11 : m = 11
  · subst h11
    rw [show ((11 : Nat) : Int) + 1 = (12 : Int) by omega]
    rw [show normDate y 12 1 = ⟨y + 1, 0, 1⟩ from ?_]
    · rw [JSDate.setDate]
      dsimp only
      rw [show ((0 : Nat) : Int) = (0 : Int) from rfl, normDate_zero_of_zero]
      simp
      rfl
    · unfold normDate
      rw [normMonth_twelve]
      dsimp only
      rw [borrowDays_stop (y + 1) 0 1 (by omega)]
      dsimp only
      rw [carryDays_stop (y + 1) 0 1 (by have := daysInMonth_ge (y + 1) 0; omega)]
  · have hc : (m : Int) + 1 = ((m + 1 : Nat) : Int) := by omega
    rw [hc, normDate_valid y (m + 1) 1 (by omega) (by omega)
      (by have := daysInMonth_ge y (m + 1); omega)]
    rw [JSDate.setDate]
    dsimp only
    rw [normDate_zero_of_pos y (m + 1) (by omega) (by omega)]
    simp

/-- **C4** (amended): if the invocation day-of-month is 16 or later, the
selected period is the current calendar month *in full* — its first day
through its last day (not through the invocation date, as claimed); otherwise
it is the previous calendar month, first day through last day inclusive. -/
theorem report_period_selection_spec (today : JSDate) (hm : today.month < 12)
    (hd1 : 1 ≤ today.day)
    (hd2 : today.day ≤ (daysInMonth today.year today.month : Int)) :
    (16 ≤ today.day →
      reportDateStart today = ⟨today.year, today.month, 1⟩ ∧
      reportDateEnd today
        = ⟨today.year, today.month, (daysInMonth today.year today.month : Int)⟩) ∧
    (today.day ≤ 15 →
      (today.month = 0 →
        reportDateStart today = ⟨today.year - 1, 11, 1⟩ ∧
        reportDateEnd today = ⟨today.year - 1, 11, 31⟩) ∧
      (∀ m0 : Nat, today.month = m0 + 1 →
        reportDateStart today = ⟨today.year, m0, 1⟩ ∧
        reportDateEnd today
          = ⟨today.year, m0, (daysInMonth today.year m0 : Int)⟩)) := by
  obtain ⟨y, m, d⟩ := today
  dsimp only at hm hd1 hd2 ⊢
  have hstart1 : firstDayOfCurrentMonth ⟨y, m, d⟩ = ⟨y, m, 1⟩ := by
    unfold firstDayOfCurrentMonth
    exact setDate_valid y m d 1 hm (by omega)
      (by have := daysInMonth_ge y m; omega)
  constructor
  · intro h16
    have hif : reportDateStart ⟨y, m, d⟩ = firstDayOfCurrentMonth ⟨y, m, d⟩ := by
      unfold reportDateStart
      rw [if_pos (by dsimp only; omega)]
    refine ⟨by rw [hif, hstart1], ?_⟩
    unfold reportDateEnd
    rw [hif, hstart1, getLastDayOfMonth_first y m hm]
  · intro h15
    have hif : reportDateStart ⟨y, m, d⟩ = firstDayOfPreviousMonth ⟨y, m, d⟩ := by
      unfold reportDateStart
      rw [if_neg (by dsimp only; omega)]
    constructor
    · intro hm0
      subst hm0
      have hprev : firstDayOfPreviousMonth ⟨y, 0, d⟩ = ⟨y - 1, 11, 1⟩ := by
        unfold firstDayOfPreviousMonth
        rw [hstart1, setMonth_eq_normDate]
        dsimp only
        rw [show ((0 : Nat) : Int) - 1 = (-1 : Int) by omega]
        unfold normDate
        rw [normMonth_neg_one]
        dsimp only
        rw [borrowDays_stop (y - 1) 11 1 (by omega)]
        dsimp only
        rw [carryDays_stop (y - 1) 11 1
          (by have := daysInMonth_ge (y - 1) 11; omega)]
      refine ⟨by rw [hif, hprev], ?_⟩
      unfold reportDateEnd
      rw [hif, hprev, getLastDayOfMonth_first (y - 1) 11 (by omega)]
      rfl
    · intro m0 hm0
      subst hm0
      have hprev : firstDayOfPreviousMonth ⟨y, m0 + 1, d⟩ = ⟨y, m0, 1⟩ := by
        unfold firstDayOfPreviousMonth
        rw [hstart1, setMonth_eq_normDate]
        dsimp only
        rw [show ((m0 + 1 : Nat) : Int) - 1 = ((m0 : Nat) : Int) by omega]
        exact normDate_valid y m0 1 (by omega) (by omega)
          (by have := daysInMonth_ge y m0; omega)
      refine ⟨by rw [hif, hprev], ?_⟩
      unfold reportDateEnd
      rw [hif, hprev, getLastDayOfMonth_first y m0 (by omega)]

/-- **C4** fails as stated: invoked on 2024-01-20 (day ≥ 16), the report
period ends on January 31 — the last day of the current month — not on the
invocation date January 20 ("to date"/"today") that the claim asserts. -/
theorem report_period_counterexample :
    reportDateEnd ⟨2024, 0, 20⟩ = ⟨2024, 0, 31⟩ ∧
    (⟨2024, 0, 31⟩ : JSDate) ≠ ⟨2024, 0, 20⟩ := by
  constructor
  · unfold reportDateEnd reportDateStart
    rw [if_pos (by dsimp only; omega)]
    have h1 : firstDayOfCurrentMonth ⟨2024, 0, 20⟩ = ⟨2024, 0, 1⟩ := by
      unfold firstDayOfCurrentMonth
      exact setDate_valid 2024 0 20 1 (by omega) (by omega) (by decide)
    rw [h1, getLastDayOfMonth_first 2024 0 (by omega)]
    rfl
  · decide

/-- Witness for the amended **C4** theorem at 2024-01-20. -/
theorem report_period_selection_spec_witness :
    reportDateStart ⟨2024, 0, 20⟩ = ⟨2024, 0, 1⟩ ∧
    reportDateEnd ⟨2024, 0, 20⟩ = ⟨2024, 0, 31⟩ := by
  have h := (report_period_selection_spec ⟨2024, 0, 20⟩ (by decide) (by decide)
    (by decide)).1 (by decide)
  exact ⟨h.1, h.2⟩

/-- **C3** (amended): for every raw record retained by normalization, a
present comment yields the document-text flattener's output in both variants;
an absent comment yields the empty string in the document variant, but in the
CLI variant (`src/index.ts`, which lacks the `?? ''`) the field stays
undefined (`none`), not the empty string. -/
theorem comment_extraction_spec (issueById : List (String × Issue))
    (w : RawWorklog) :
    (∀ e, normalizeWorklogDoc issueById w = Except.ok e →
      e.comment = match w.comment with
        | none => ""
        | some c => extractTextFromJiraDocumentNode c) ∧
    (∀ e, normalizeWorklogCli issueById w = Except.ok e →
      e.comment = match w.comment with
        | none => none
        | some c => some (extractTextFromJiraDocumentNode c)) := by
  constructor
  · intro e h
    unfold normalizeWorklogDoc at h
    cases hs : w.started with
    | none =>
      rw [hs] at h
      dsimp only at h
      rw [except_bind_error] at h
      exact Except.noConfusion h
    | some s =>
      rw [hs] at h
      dsimp only at h
      rw [except_bind_ok] at h
      cases hl : w.issueId.bind (fun issueId => issueById.lookup issueId) with
      | none =>
        rw [hl] at h
        dsimp only at h
        rw [except_bind_error] at h
        exact Except.noConfusion h
      | some issue =>
        rw [hl] at h
        dsimp only at h
        rw [except_bind_ok] at h
        cases h
        cases w.comment <;> rfl
  · intro e h
    unfold normalizeWorklogCli at h
    cases hs : w.started with
    | none =>
      rw [hs] at h
      dsimp only at h
      rw [except_bind_error] at h
      exact Except.noConfusion h
    | some s =>
      rw [hs] at h
      dsimp only at h
      rw [except_bind_ok] at h
      cases hl : w.issueId.bind (fun issueId => issueById.lookup issueId) with
      | none =>
        rw [hl] at h
        dsimp only at h
        rw [except_bind_error] at h
        exact Except.noConfusion h
      | some issue =>
        rw [hl] at h
        dsimp only at h
        rw [except_bind_ok] at h
        cases h
        cases w.comment <;> rfl

/-- **C3** fails as stated: normalizing a comment-less record in the CLI
variant leaves the comment field undefined (`none`), not the empty string. -/
theorem comment_extraction_counterexample :
    (normalizeWorklogCli testIssueById testRawNoComment).map CliWorklog.comment
      = Except.ok none ∧
    (Except.ok (none : Option String) : Except String (Option String))
      ≠ Except.ok (some "") := by
  constructor
  · rfl
  · simp

/-- Witness for the amended **C3** theorem on a concrete comment-less
record. -/
theorem comment_extraction_spec_witness :
    ({ started := "2024-01-01T09:00", issue := "AB-1",
       timeSpentInHours := (0 : ℚ) / 3600, comment := "" } : DocWorklog).comment
      = "" ∧
    ({ started := "2024-01-01T09:00", issue := "AB-1",
       timeSpentInHours := (0 : ℚ) / 3600,
       comment := none } : CliWorklog).comment = none := by
  have h := comment_extraction_spec testIssueById testRawNoComment
  exact ⟨h.1 _ rfl, h.2 _ rfl⟩

theorem cliNormalized_empty (env : JiraEnv) (issueById : List (String × Issue)) :
    cliNormalizedWorklogs env issueById [] = Except.ok [] := by
  unfold cliNormalizedWorklogs
  rw [List.mapM_nil, pure_bind]
  simp

theorem docNormalized_empty (env : JiraEnv) (issueById : List (String × Issue)) :
    docNormalizedWorklogs env issueById [] = Except.ok [] := by
  unfold docNormalizedWorklogs
  rw [List.mapM_nil, pure_bind]
  simp

/-- **C1** (amended): in daily-summary mode the CLI (text-serialization)
entry point emits the header line `"Date,Hours,Issues"` and the document
entry point emits the header row `["Date","Hours spent","Issues"]` — the
reverse of the claimed assignment of the two literals to the two variants. -/
theorem dailySummary_header_variants (env : JiraEnv) :
    (∀ hdr rows, getMyWorklogsSince env .DailySummary
        = Except.ok (some (hdr, rows)) → hdr = "Date,Hours,Issues") ∧
    (∀ rows, getMyWorklogsForPeriod env .DailySummary = Except.ok rows →
      rows ≠ [] →
      rows.headD []
        = [Cell.str "Date", Cell.str "Hours spent", Cell.str "Issues"]) := by
  constructor
  · intro hdr rows h
    cases hiss : issuesSearchResponseIssues env with
    | none =>
      unfold getMyWorklogsSince at h
      rw [hiss] at h
      simp at h
    | some issues =>
      cases hws : cliNormalizedWorklogs env (buildIssueByIdMap issues)
          (issues.map (fun issue => env.fetchWorklogs issue.key)) with
      | error msg =>
        unfold getMyWorklogsSince at h
        rw [hiss] at h
        dsimp only at h
        rw [hws, except_bind_error] at h
        exact Except.noConfusion h
      | ok ws =>
        rw [getMyWorklogsSince_ok_daily env issues ws hiss hws] at h
        simp at h
        exact h.1.symm
  · intro rows h hne
    cases hiss : issuesSearchResponseIssues env with
    | none =>
      unfold getMyWorklogsForPeriod at h
      rw [hiss] at h
      simp at h
      exact absurd h hne
    | some issues =>
      cases hws : docNormalizedWorklogs env (buildIssueByIdMap issues)
          (issues.map (fun issue => env.fetchWorklogs issue.key)) with
      | error msg =>
        unfold getMyWorklogsForPeriod at h
        rw [hiss] at h
        dsimp only at h
        rw [hws, except_bind_error] at h
        exact Except.noConfusion h
      | ok ws =>
        rw [getMyWorklogsForPeriod_ok_daily env issues ws hiss hws] at h
        injection h with h2
        subst h2
        rfl

/-- **C1** fails as stated: at a concrete invocation the CLI prints the
header `"Date,Hours,Issues"` (not `"Date,Hours spent,Issues"`) and the
document variant's header row reads `["Date","Hours spent","Issues"]` (not
`["Date","Hours","Issues"]`) — the two literals are assigned the other way
around. -/
theorem dailySummary_header_counterexample :
    getMyWorklogsSince testEnvEmptyIssues .DailySummary
      = Except.ok (some ("Date,Hours,Issues", [])) ∧
    getMyWorklogsForPeriod testEnvEmptyIssues .DailySummary
      = Except.ok [[Cell.str "Date", Cell.str "Hours spent", Cell.str "Issues"],
          [Cell.str "Total", Cell.fmtNum 0, Cell.str ""]] ∧
    ("Date,Hours,Issues" : String) ≠ "Date,Hours spent,Issues" ∧
    [Cell.str "Date", Cell.str "Hours spent", Cell.str "Issues"]
      ≠ [Cell.str "Date", Cell.str "Hours", Cell.str "Issues"] := by
  refine ⟨?_, ?_, by decide, by decide⟩
  · rw [getMyWorklogsSince_ok_daily testEnvEmptyIssues [] [] rfl
      (cliNormalized_empty _ _)]
    rfl
  · rw [getMyWorklogsForPeriod_ok_daily testEnvEmptyIssues [] [] rfl
      (docNormalized_empty _ _)]
    rfl

/-- Witness for the amended **C1** theorem at a concrete environment. -/
theorem dailySummary_header_variants_witness :
    ("Date,Hours,Issues" : String) = "Date,Hours,Issues" ∧
    ([[Cell.str "Date", Cell.str "Hours spent", Cell.str "Issues"],
      [Cell.str "Total", Cell.fmtNum 0, Cell.str ""]] : List (List Cell)).headD []
      = [Cell.str "Date", Cell.str "Hours spent", Cell.str "Issues"] := by
  constructor
  · exact (dailySummary_header_variants testEnvEmptyIssues).1 "Date,Hours,Issues" []
      (by
        rw [getMyWorklogsSince_ok_daily testEnvEmptyIssues [] [] rfl
          (cliNormalized_empty _ _)]
        rfl)
  · exact (dailySummary_header_variants testEnvEmptyIssues).2
      [[Cell.str "Date", Cell.str "Hours spent", Cell.str "Issues"],
       [Cell.str "Total", Cell.fmtNum 0, Cell.str ""]]
      (by
        rw [getMyWorklogsForPeriod_ok_daily testEnvEmptyIssues [] [] rfl
          (docNormalized_empty _ _)]
        rfl)
      (by simp)

theorem sum_dailyRows_col1 (startedOf issueOf : α → String) (hoursOf : α → ℚ)
    (entries : List α) :
    ((dailyRows (dailyFold startedOf issueOf hoursOf entries)).map
      (fun r => cellNum (r.getD 1 Cell.undef))).sum = (entries.map hoursOf).sum := by
  rw [dailyFold_eq_dailySpec, dailySpec, dailyRows, List.map_map, List.map_map]
  exact sum_map_dedupFirst_filter (fun e => dayOf (startedOf e)) hoursOf entries

/-- **C2** (amended): every document-variant table, in both aggregation
modes, is a header row, data rows, and exactly one trailing total row whose
numeric cell carries the sum of the data rows' numeric column as a
decimal-comma-formatted string (in both modes, not only in daily-summary);
the CLI (text-serialization) variant appends no total row in either mode:
its daily-summary matrix is *exactly* the per-day data rows — one row
`[day, raw-number hours total, joined issue keys]` per distinct day and
nothing else — and its detailed matrix is exactly one row per normalized
entry, so neither CLI matrix contains any additional (total) row. -/
theorem report_total_row_spec (env : JiraEnv) :
    (∀ rows, getMyWorklogsForPeriod env .Detailed = Except.ok rows →
      rows ≠ [] →
      ∃ dataRows, rows
        = [Cell.str "Date", Cell.str "Issue", Cell.str "Hours spent",
            Cell.str "Comment"]
          :: dataRows
          ++ [[Cell.str "Total", Cell.str "",
               Cell.fmtNum ((dataRows.map
                 (fun r => cellNum (r.getD 2 Cell.undef))).sum),
               Cell.str ""]]) ∧
    (∀ rows, getMyWorklogsForPeriod env .DailySummary = Except.ok rows →
      rows ≠ [] →
      ∃ dataRows, rows
        = [Cell.str "Date", Cell.str "Hours spent", Cell.str "Issues"]
          :: dataRows
          ++ [[Cell.str "Total",
               Cell.fmtNum ((dataRows.map
                 (fun r => cellNum (r.getD 1 Cell.undef))).sum),
               Cell.str ""]] ∧
        ∀ r ∈ dataRows, ∃ d q i, r = [Cell.str d, Cell.num q, Cell.str i]) ∧
    (∀ hdr rows, getMyWorklogsSince env .DailySummary
        = Except.ok (some (hdr, rows)) →
      ∃ ws, cliNormalizedWorklogs env
          (buildIssueByIdMap ((issuesSearchResponseIssues env).getD []))
          (((issuesSearchResponseIssues env).getD []).map
            (fun issue => env.fetchWorklogs issue.key)) = Except.ok ws ∧
        rows = dailyRows (dailySpec CliWorklog.started CliWorklog.issue
          CliWorklog.timeSpentInHours ws) ∧
        ∀ r ∈ rows, ∃ d q i, r = [Cell.str d, Cell.num q, Cell.str i]) ∧
    (∀ hdr rows, getMyWorklogsSince env .Detailed
        = Except.ok (some (hdr, rows)) →
      ∃ ws, cliNormalizedWorklogs env
          (buildIssueByIdMap ((issuesSearchResponseIssues env).getD []))
          (((issuesSearchResponseIssues env).getD []).map
            (fun issue => env.fetchWorklogs issue.key)) = Except.ok ws ∧
        rows.length = ws.length ∧
        ∀ r ∈ rows, ∃ w ∈ ws,
          r = [Cell.str (dayOf w.started), Cell.str w.issue,
               Cell.fmtNum w.timeSpentInHours,
               match w.comment with
               | some s => Cell.str s
               | none => Cell.undef]) := by
  refine ⟨?_, ?_, ?_, ?_⟩
  · intro rows h hne
    cases hiss : issuesSearchResponseIssues env with
    | none =>
      unfold getMyWorklogsForPeriod at h
      rw [hiss] at h
      simp at h
      exact absurd h hne
    | some issues =>
      cases hws : docNormalizedWorklogs env (buildIssueByIdMap issues)
          (issues.map (fun issue => env.fetchWorklogs issue.key)) with
      | error msg =>
        unfold getMyWorklogsForPeriod at h
        rw [hiss] at h
        dsimp only at h
        rw [hws, except_bind_error] at h
        exact Except.noConfusion h
      | ok ws =>
        rw [getMyWorklogsForPeriod_ok_detailed env issues ws hiss hws] at h
        injection h with h2
        subst h2
        refine ⟨ws.map (fun w => [Cell.str (dayOf w.started), Cell.str w.issue,
          Cell.fmtNum w.timeSpentInHours, Cell.str w.comment]), ?_⟩
        have hcol : (((ws.map (fun w => [Cell.str (dayOf w.started),
              Cell.str w.issue, Cell.fmtNum w.timeSpentInHours,
              Cell.str w.comment])).map
              (fun r => cellNum (r.getD 2 Cell.undef))).sum)
            = (ws.map DocWorklog.timeSpentInHours).sum := by
          rw [List.map_map]
          rfl
        have hsum : ws.foldl (fun sum w => sum + w.timeSpentInHours) 0
            = (ws.map DocWorklog.timeSpentInHours).sum := by
          rw [foldl_add_eq_sum DocWorklog.timeSpentInHours ws 0, zero_add]
        rw [hcol, hsum]
        rfl
  · intro rows h hne
    cases hiss : issuesSearchResponseIssues env with
    | none =>
      unfold getMyWorklogsForPeriod at h
      rw [hiss] at h
      simp at h
      exact absurd h hne
    | some issues =>
      cases hws : docNormalizedWorklogs env (buildIssueByIdMap issues)
          (issues.map (fun issue => env.fetchWorklogs issue.key)) with
      | error msg =>
        unfold getMyWorklogsForPeriod at h
        rw [hiss] at h
        dsimp only at h
        rw [hws, except_bind_error] at h
        exact Except.noConfusion h
      | ok ws =>
        rw [getMyWorklogsForPeriod_ok_daily env issues ws hiss hws] at h
        injection h with h2
        subst h2
        refine ⟨dailyRows (dailyFold DocWorklog.started DocWorklog.issue
          DocWorklog.timeSpentInHours ws), ?_, ?_⟩
        · have hcol := sum_dailyRows_col1 DocWorklog.started DocWorklog.issue
            DocWorklog.timeSpentInHours ws
          have hsum : ws.foldl (fun sum w => sum + w.timeSpentInHours) 0
              = (ws.map DocWorklog.timeSpentInHours).sum := by
            rw [foldl_add_eq_sum DocWorklog.timeSpentInHours ws 0, zero_add]
          rw [hcol, hsum]
          rfl
        · intro r hr
          rcases List.mem_map.mp hr with ⟨p, -, rfl⟩
          exact ⟨p.1, p.2.timeSpentInHours,
            String.intercalate ", " p.2.issues, rfl⟩
  · intro hdr rows h
    cases hiss : issuesSearchResponseIssues env with
    | none =>
      unfold getMyWorklogsSince at h
      rw [hiss] at h
      simp at h
    | some issues =>
      cases hws : cliNormalizedWorklogs env (buildIssueByIdMap issues)
          (issues.map (fun issue => env.fetchWorklogs issue.key)) with
      | error msg =>
        unfold getMyWorklogsSince at h
        rw [hiss] at h
        dsimp only at h
        rw [hws, except_bind_error] at h
        exact Except.noConfusion h
      | ok ws =>
        rw [getMyWorklogsSince_ok_daily env issues ws hiss hws] at h
        simp at h
        refine ⟨ws, ?_, ?_, ?_⟩
        · exact hws
        · rw [← h.2, dailyFold_eq_dailySpec]
        · intro r hr
          rw [← h.2] at hr
          rcases List.mem_map.mp hr with ⟨p, -, rfl⟩
          exact ⟨p.1, p.2.timeSpentInHours,
            String.intercalate ", " p.2.issues, rfl⟩
  · intro hdr rows h
    cases hiss : issuesSearchResponseIssues env with
    | none =>
      unfold getMyWorklogsSince at h
      rw [hiss] at h
      simp at h
    | some issues =>
      cases hws : cliNormalizedWorklogs env (buildIssueByIdMap issues)
          (issues.map (fun issue => env.fetchWorklogs issue.key)) with
      | error msg =>
        unfold getMyWorklogsSince at h
        rw [hiss] at h
        dsimp only at h
        rw [hws, except_bind_error] at h
        exact Except.noConfusion h
      | ok ws =>
        rw [getMyWorklogsSince_ok_detailed env issues ws hiss hws] at h
        simp at h
        refine ⟨ws, ?_, ?_, ?_⟩
        · exact hws
        · rw [← h.2, List.length_map]
        · intro r hr
          rw [← h.2] at hr
          rcases List.mem_map.mp hr with ⟨w, hw, rfl⟩
          exact ⟨w, hw, rfl⟩

/-- **C2** fails as stated: the CLI (text-serialization) variant never
appends a total row — at a concrete invocation its daily-summary matrix is
empty, so there is no trailing total row at all (let alone one holding a raw
numeric total). -/
theorem report_total_row_counterexample :
    getMyWorklogsSince testEnvEmptyIssues .DailySummary
      = Except.ok (some ("Date,Hours,Issues", [])) ∧
    ([] : List (List Cell)).getLast? = none := by
  constructor
  · rw [getMyWorklogsSince_ok_daily testEnvEmptyIssues [] [] rfl
      (cliNormalized_empty _ _)]
    rfl
  · rfl

/-- Witness for the amended **C2** theorem at a concrete environment,
exercising all four conjuncts. -/
theorem report_total_row_spec_witness :
    (∃ dataRows, ([[Cell.str "Date", Cell.str "Issue", Cell.str "Hours spent",
          Cell.str "Comment"],
        [Cell.str "Total", Cell.str "", Cell.fmtNum 0, Cell.str ""]]
          : List (List Cell))
      = [Cell.str "Date", Cell.str "Issue", Cell.str "Hours spent",
          Cell.str "Comment"]
        :: dataRows
        ++ [[Cell.str "Total", Cell.str "",
             Cell.fmtNum ((dataRows.map
               (fun r => cellNum (r.getD 2 Cell.undef))).sum),
             Cell.str ""]]) ∧
    (∃ dataRows, ([[Cell.str "Date", Cell.str "Hours spent", Cell.str "Issues"],
        [Cell.str "Total", Cell.fmtNum 0, Cell.str ""]] : List (List Cell))
      = [Cell.str "Date", Cell.str "Hours spent", Cell.str "Issues"]
        :: dataRows
        ++ [[Cell.str "Total",
             Cell.fmtNum ((dataRows.map
               (fun r => cellNum (r.getD 1 Cell.undef))).sum),
             Cell.str ""]] ∧
      ∀ r ∈ dataRows, ∃ d q i, r = [Cell.str d, Cell.num q, Cell.str i]) ∧
    (∃ ws, cliNormalizedWorklogs testEnvEmptyIssues
        (buildIssueByIdMap
          ((issuesSearchResponseIssues testEnvEmptyIssues).getD []))
        (((issuesSearchResponseIssues testEnvEmptyIssues).getD []).map
          (fun issue => testEnvEmptyIssues.fetchWorklogs issue.key))
        = Except.ok ws ∧
      ([] : List (List Cell)) = dailyRows (dailySpec CliWorklog.started
        CliWorklog.issue CliWorklog.timeSpentInHours ws) ∧
      ∀ r ∈ ([] : List (List Cell)),
        ∃ d q i, r = [Cell.str d, Cell.num q, Cell.str i]) ∧
    (∃ ws, cliNormalizedWorklogs testEnvEmptyIssues
        (buildIssueByIdMap
          ((issuesSearchResponseIssues testEnvEmptyIssues).getD []))
        (((issuesSearchResponseIssues testEnvEmptyIssues).getD []).map
          (fun issue => testEnvEmptyIssues.fetchWorklogs issue.key))
        = Except.ok ws ∧
      ([] : List (List Cell)).length = ws.length ∧
      ∀ r ∈ ([] : List (List Cell)), ∃ w ∈ ws,
        r = [Cell.str (dayOf w.started), Cell.str w.issue,
             Cell.fmtNum w.timeSpentInHours,
             match w.comment with
             | some s => Cell.str s
             | none => Cell.undef]) := by
  refine ⟨?_, ?_, ?_, ?_⟩
  · exact (report_total_row_spec testEnvEmptyIssues).1
      [[Cell.str "Date", Cell.str "Issue", Cell.str "Hours spent",
          Cell.str "Comment"],
        [Cell.str "Total", Cell.str "", Cell.fmtNum 0, Cell.str ""]]
      (by
        rw [getMyWorklogsForPeriod_ok_detailed testEnvEmptyIssues [] [] rfl
          (docNormalized_empty _ _)]
        rfl)
      (by simp)
  · exact (report_total_row_spec testEnvEmptyIssues).2.1
      [[Cell.str "Date", Cell.str "Hours spent", Cell.str "Issues"],
        [Cell.str "Total", Cell.fmtNum 0, Cell.str ""]]
      (by
        rw [getMyWorklogsForPeriod_ok_daily testEnvEmptyIssues [] [] rfl
          (docNormalized_empty _ _)]
        rfl)
      (by simp)
  · exact (report_total_row_spec testEnvEmptyIssues).2.2.1 "Date,Hours,Issues" []
      (by
        rw [getMyWorklogsSince_ok_daily testEnvEmptyIssues [] [] rfl
          (cliNormalized_empty _ _)]
        rfl)
  · exact (report_total_row_spec testEnvEmptyIssues).2.2.2
      "Date,Issue,Hours spent,Comment" []
      (by
        rw [getMyWorklogsSince_ok_detailed testEnvEmptyIssues [] [] rfl
          (cliNormalized_empty _ _)]
        rfl)

/-- Witness for the **C5** theorem: two same-day entries for the same issue
(1h and 2h) yield a day summing to 3 with the issue key listed once. -/
theorem daily_aggregation_spec_witness :
    ((dailyFold DocWorklog.started DocWorklog.issue DocWorklog.timeSpentInHours
        [⟨"2024-01-01T09:00", "AB-1", 1, ""⟩,
         ⟨"2024-01-01T10:00", "AB-1", 2, ""⟩]).map
      (fun p => p.2.timeSpentInHours)).sum
      = ([(⟨"2024-01-01T09:00", "AB-1", 1, ""⟩ : DocWorklog),
          ⟨"2024-01-01T10:00", "AB-1", 2, ""⟩].map
            DocWorklog.timeSpentInHours).sum ∧
    (["AB-1"] : List String).Nodup ∧
    "AB-1" ∈ (["AB-1"] : List String) := by
  have h := daily_aggregation_spec DocWorklog.started DocWorklog.issue
    DocWorklog.timeSpentInHours
    [⟨"2024-01-01T09:00", "AB-1", 1, ""⟩, ⟨"2024-01-01T10:00", "AB-1", 2, ""⟩]
  have hmem : ("2024-01-01", (⟨3, ["AB-1"]⟩ : DailyWorklog)) ∈
      dailyFold DocWorklog.started DocWorklog.issue DocWorklog.timeSpentInHours
        [⟨"2024-01-01T09:00", "AB-1", 1, ""⟩,
         ⟨"2024-01-01T10:00", "AB-1", 2, ""⟩] := by
    simp +decide [dailyFold, dailyStep, dayOf, takeUntilChar]
    norm_num
  have h2 := h.2 "2024-01-01" ⟨3, ["AB-1"]⟩ hmem
  refine ⟨h.1, h2.2.1, ?_⟩
  exact (h2.2.2 "AB-1").mpr
    ⟨⟨"2024-01-01T09:00", "AB-1", 1, ""⟩, by simp, by decide, rfl⟩

/-- Witness for the **C7** theorem on an empty batch of responses. -/
theorem normalized_entries_sorted_witness :
    ([] : List DocWorklog).Pairwise
      (fun a b => testEnvNoIssues.parseDate a.started
        ≤ testEnvNoIssues.parseDate b.started) :=
  (normalized_entries_sorted_by_started testEnvNoIssues [] []).1 []
    (docNormalized_empty _ _)

/-- Witness for the **C8** theorem: a record whose author email matches the
configured user is retained by the filter. -/
theorem author_filter_spec_witness :
    testRawNoComment ∈
      [testRawNoComment].filter (authorMatches "user@example.com") :=
  (author_filter_spec "user@example.com" [testRawNoComment] testRawNoComment
    (by simp)).1.mpr rfl

/-- Witness for the **C9** theorem at a concrete environment without an
`issues` field. -/
theorem missing_issues_empty_output_witness :
    getMyWorklogsForPeriod testEnvNoIssues .DailySummary = Except.ok [] ∧
    getMyWorklogsSince testEnvNoIssues .DailySummary = Except.ok none :=
  missing_issues_empty_output testEnvNoIssues rfl .DailySummary

/-- Witness for the **C10** theorem at a concrete environment. -/
theorem search_truncation_spec_witness :
    getMyWorklogsForPeriod testEnvEmptyIssues .DailySummary
      = getMyWorklogsForPeriod
          { testEnvEmptyIssues with
              allMatchingIssues := some (List.take 100 ([] : List Issue)) }
          .DailySummary ∧
    getMyWorklogsSince testEnvEmptyIssues .DailySummary
      = getMyWorklogsSince
          { testEnvEmptyIssues with
              allMatchingIssues := some (List.take 100 ([] : List Issue)) }
          .DailySummary ∧
    issuesSearchResponseIssues testEnvEmptyIssues
      = some (List.take 100 ([] : List Issue)) ∧
    ((issuesSearchResponseIssues testEnvEmptyIssues).getD []).length ≤ 100 :=
  search_truncation_spec testEnvEmptyIssues [] rfl .DailySummary

end JiraAssistant
